import Mathlib

/-!
Verification of `src/bedpeSummary/bedpeSummary.cpp` (bedtools `bedpesummary`).

The program streams BEDPE records, classifies each valid record by comparing
its two chromosome fields, accumulates counters, distances and strand-based
structural-variant sub-categories, and finally reports mean, median and a
10-bin histogram of the buffered distances.

Genomic coordinates (`CHRPOS`) are signed 64-bit integers in the source; every
quantity the summary manipulates (distances, sums, counts, bin indices) is
non-negative, so they are embedded as `Nat`, with `Int` for the raw
coordinates that are subtracted.  Fallible operations (out-of-bounds
`std::vector` indexing, the conversion of `std::nan("")` to an integer type)
are embedded as `Option`, `none` marking undefined behaviour of the C++.
-/

namespace BedpeSummary

/-- Modelled from the spec: a `PairedRecord` / `BEDPE` entry as produced by the
record reader (`bedFilePE.h` is not part of the analysed sources): two
chromosome identifiers (opaque strings), two start/end coordinate pairs
(integers), and two strand fields (`"+"`, `"-"`, or unspecified). -/
structure BEDPE where
  chrom1 : String
  start1 : Int
  end1 : Int
  chrom2 : String
  start2 : Int
  end2 : Int
  strand1 : String
  strand2 : String
  deriving DecidableEq, Repr

/-- Modelled from the spec: one outcome of `GetNextBedPE` inside the scan.
`valid` carries a `BED_VALID` record; `skipline` stands for any non-record
line (header/blank) that the loop body ignores.  The terminating
`BED_INVALID` outcome is the end of the embedded list. -/
inductive BedpeLine where
  | valid (r : BEDPE)
  | skipline
  deriving DecidableEq, Repr

/-- The accumulator of `ProcessBedPE_summary` (source lines 136-140): the five
counters, the running distance total, and the buffered distance list
`accum`. -/
structure SummaryState where
  n_intrachrom : Nat
  n_interchrom : Nat
  inversion : Nat
  insertion : Nat
  deletion : Nat
  total_distance : Nat
  accum : List Nat
  deriving DecidableEq, Repr

/-- All counters start at zero, the buffer empty (source lines 138-140). -/
def initState : SummaryState := ⟨0, 0, 0, 0, 0, 0, []⟩

/-- One iteration of the scan loop body (source lines 148-167), literally:
`if (chrom1 == chrom2) n_interchrom++; else { n_intrachrom++; distance =
llabs(start2-start1); accum.push_back(distance); total_distance += distance;
if-chain on strands }`. -/
def summaryStep (acc : SummaryState) (line : BedpeLine) : SummaryState :=
  match line with
  | .skipline => acc
  | .valid r =>
    if r.chrom1 = r.chrom2 then
      { acc with n_interchrom := acc.n_interchrom + 1 }
    else
      let distance : Nat := (r.start2 - r.start1).natAbs
      let acc1 := { acc with
        n_intrachrom := acc.n_intrachrom + 1,
        accum := acc.accum ++ [distance],
        total_distance := acc.total_distance + distance }
      if r.strand1 = r.strand2 then
        { acc1 with inversion := acc1.inversion + 1 }
      else if r.strand1 = "+" ∧ r.strand2 = "-" then
        { acc1 with deletion := acc1.deletion + 1 }
      else if r.strand1 = "-" ∧ r.strand2 = "+" then
        { acc1 with insertion := acc1.insertion + 1 }
      else acc1

/-- The whole scan: fold the loop body over the line stream. -/
def runSummary (items : List BedpeLine) : SummaryState :=
  items.foldl summaryStep initState

/-- The number of `BED_VALID` records in a stream. -/
def countValid (items : List BedpeLine) : Nat :=
  items.countP (fun l => match l with | .valid _ => true | .skipline => false)

/-- Source lines 95-100, `calc_median_chrposv`: sort, then
`n % 2 ? accum[n/2] : (accum[n/2-1] + accum[n/2]) / 2`.  The index
`n/2 - 1` is computed in `size_t`, so for `n = 0` it wraps around to
`2^64 - 1`; `std::vector::operator[]` out of bounds is undefined behaviour,
embedded as `List.get?` yielding `none`. -/
def calc_median_chrposv (accum : List Nat) : Option Nat :=
  let sorted := List.insertionSort (fun a b => a ≤ b) accum
  let n := accum.length
  if n % 2 = 1 then
    sorted.get? (n / 2)
  else
    match sorted.get? ((n / 2 + 2 ^ 64 - 1) % 2 ^ 64), sorted.get? (n / 2) with
    | some a, some b => some ((a + b) / 2)
    | _, _ => none

/-- The spec's own definition of the exact median (spec 4.2): sort ascending;
odd length yields the middle element; even length yields the
integer-truncating arithmetic mean of the two middle elements. -/
def spec_exact_median (l : List Nat) : Nat :=
  let sorted := List.insertionSort (fun a b => a ≤ b) l
  let n := l.length
  if n % 2 = 1 then sorted.getD (n / 2) 0
  else (sorted.getD (n / 2 - 1) 0 + sorted.getD (n / 2) 0) / 2

/-- The result fields of the `HistogramData` constructor (source lines
102-131). -/
structure HistogramData where
  n_bins : Nat
  min_val : Nat
  max_val : Nat
  bin_width : Nat
  bin_data : List Nat
  deriving DecidableEq, Repr

/-- Source line 121, `bin_data[bin_idx]++`: in-bounds increment, `none` for
the undefined out-of-bounds `std::vector` write. -/
def bumpBin (bins : List Nat) (idx : Nat) : Option (List Nat) :=
  if h : idx < bins.length then some (bins.set idx (bins.get ⟨idx, h⟩ + 1)) else none

/-- The bin index of one value (source lines 118-120):
`bin_idx = (value - min_val) / bin_width; if (bin_idx == num_bins) bin_idx--;`. -/
def binIndex (min_val bin_width num_bins value : Nat) : Nat :=
  let bin_idx := (value - min_val) / bin_width
  if bin_idx = num_bins then bin_idx - 1 else bin_idx

/-- The counting loop of the constructor (source lines 117-122). -/
def fillBins (min_val bin_width num_bins : Nat) (data : List Nat)
    (bins : List Nat) : Option (List Nat) :=
  data.foldlM (fun b v => bumpBin b (binIndex min_val bin_width num_bins v)) bins

/-- The `HistogramData` constructor (source lines 105-123): members are
initialised to `0` and `bin_data` to `num_bins` zeroes; on empty data or no
bins it returns immediately; otherwise `min_val`/`max_val` are the extrema
(`std::min_element`/`std::max_element` over a non-empty range),
`bin_width = (max_val - min_val) / num_bins`, a zero width returns with the
zero bins, and otherwise every value is binned. -/
def HistogramData.make (data : List Nat) (num_bins : Nat) : Option HistogramData :=
  match data with
  | [] => some ⟨num_bins, 0, 0, 0, List.replicate num_bins 0⟩
  | d :: ds =>
    if num_bins = 0 then some ⟨num_bins, 0, 0, 0, List.replicate num_bins 0⟩
    else
      let min_val := ds.foldl Nat.min d
      let max_val := ds.foldl Nat.max d
      let bin_width := (max_val - min_val) / num_bins
      if bin_width = 0 then some ⟨num_bins, min_val, max_val, bin_width, List.replicate num_bins 0⟩
      else
        (fillBins min_val bin_width num_bins (d :: ds) (List.replicate num_bins 0)).map
          (fun bins => ⟨num_bins, min_val, max_val, bin_width, bins⟩)

/-- Source line 170: `mean_len = (n_intrachrom != 0) ? total_distance /
n_intrachrom : std::nan("")`.  `mean_len` has the integer type `CHRPOS`, so
the second arm converts the floating NaN to an integer — undefined behaviour
with no NaN sentinel in the result type, embedded as `none`. -/
def mean_len (total_distance n_intrachrom : Nat) : Option Nat :=
  if n_intrachrom ≠ 0 then some (total_distance / n_intrachrom) else none

/-- The values `ProcessBedPE_summary` prints (source lines 173-188). -/
structure Report where
  inversion : Nat
  insertion : Nat
  deletion : Nat
  n_interchrom : Nat
  n_intrachrom : Nat
  mean : Option Nat
  median : Option Nat
  hist : Option HistogramData
  deriving DecidableEq, Repr

/-- Source lines 133-191, `ProcessBedPE_summary`: an immediately invalid
stream returns before printing anything (line 146); otherwise the loop folds
over the stream and the report is assembled from the final accumulator. -/
def ProcessBedPE_summary (items : List BedpeLine) : Option Report :=
  match items with
  | [] => none
  | _ :: _ =>
    let st := runSummary items
    some ⟨st.inversion, st.insertion, st.deletion, st.n_interchrom, st.n_intrachrom,
          mean_len st.total_distance st.n_intrachrom,
          calc_median_chrposv st.accum,
          HistogramData.make st.accum 10⟩

/-! ### Characterisation of one loop iteration -/

/-- The distance a record contributes: `llabs(start2 - start1)`. -/
def dist (r : BEDPE) : Nat := (r.start2 - r.start1).natAbs

/-- Contribution of one record to `inversion`: the first strand branch. -/
def invDelta (r : BEDPE) : Nat :=
  if r.strand1 = r.strand2 then 1 else 0

/-- Contribution of one record to `deletion`: the second strand branch,
reached only when the first fails. -/
def delDelta (r : BEDPE) : Nat :=
  if ¬(r.strand1 = r.strand2) ∧ r.strand1 = "+" ∧ r.strand2 = "-" then 1 else 0

/-- Contribution of one record to `insertion`: the third strand branch,
reached only when the first two fail. -/
def insDelta (r : BEDPE) : Nat :=
  if ¬(r.strand1 = r.strand2) ∧ ¬(r.strand1 = "+" ∧ r.strand2 = "-") ∧
      r.strand1 = "-" ∧ r.strand2 = "+" then 1 else 0

theorem summaryStep_skip (acc : SummaryState) : summaryStep acc .skipline = acc := rfl

theorem summaryStep_same (acc : SummaryState) (r : BEDPE) (h : r.chrom1 = r.chrom2) :
    summaryStep acc (.valid r) = { acc with n_interchrom := acc.n_interchrom + 1 } := by
  simp only [summaryStep, if_pos h]

theorem summaryStep_diff (acc : SummaryState) (r : BEDPE) (h : ¬ r.chrom1 = r.chrom2) :
    summaryStep acc (.valid r) =
      { n_intrachrom := acc.n_intrachrom + 1,
        n_interchrom := acc.n_interchrom,
        inversion := acc.inversion + invDelta r,
        insertion := acc.insertion + insDelta r,
        deletion := acc.deletion + delDelta r,
        total_distance := acc.total_distance + dist r,
        accum := acc.accum ++ [dist r] } := by
  simp only [summaryStep, if_neg h, invDelta, insDelta, delDelta, dist]
  split_ifs with h1 h2 h3 <;> simp_all

theorem delta_sum_le_one (r : BEDPE) : invDelta r + delDelta r + insDelta r ≤ 1 := by
  unfold invDelta delDelta insDelta
  split_ifs <;> first | omega | (exfalso; tauto)

/-! ### The accumulator invariants -/

/-- The two structural invariants of the accumulator: mutually exclusive
strand categories bounded by `n_intrachrom`, and the buffer length equal to
`n_intrachrom`. -/
def StateInv (a : SummaryState) : Prop :=
  a.inversion + a.insertion + a.deletion ≤ a.n_intrachrom ∧
  a.accum.length = a.n_intrachrom

theorem foldl_counts (items : List BedpeLine) :
    ∀ acc : SummaryState,
      (List.foldl summaryStep acc items).n_interchrom
          + (List.foldl summaryStep acc items).n_intrachrom
        = acc.n_interchrom + acc.n_intrachrom + countValid items := by
  induction items with
  | nil => intro acc; simp [countValid]
  | cons it rest ih =>
    intro acc
    rw [List.foldl_cons]
    cases it with
    | skipline =>
      rw [summaryStep_skip]
      have h := ih acc
      simp [countValid, List.countP_cons] at h ⊢
      omega
    | valid r =>
      by_cases h : r.chrom1 = r.chrom2
      · rw [summaryStep_same acc r h]
        have h2 := ih { acc with n_interchrom := acc.n_interchrom + 1 }
        simp [countValid, List.countP_cons] at h2 ⊢
        omega
      · rw [summaryStep_diff acc r h]
        have h2 := ih { n_intrachrom := acc.n_intrachrom + 1,
                        n_interchrom := acc.n_interchrom,
                        inversion := acc.inversion + invDelta r,
                        insertion := acc.insertion + insDelta r,
                        deletion := acc.deletion + delDelta r,
                        total_distance := acc.total_distance + dist r,
                        accum := acc.accum ++ [dist r] }
        simp [countValid, List.countP_cons] at h2 ⊢
        omega

theorem foldl_inv (items : List BedpeLine) :
    ∀ acc : SummaryState, StateInv acc → StateInv (List.foldl summaryStep acc items) := by
  induction items with
  | nil => intro acc h; exact h
  | cons it rest ih =>
    intro acc h
    rw [List.foldl_cons]
    cases it with
    | skipline => exact ih acc h
    | valid r =>
      by_cases hc : r.chrom1 = r.chrom2
      · rw [summaryStep_same acc r hc]
        exact ih _ ⟨h.1, h.2⟩
      · rw [summaryStep_diff acc r hc]
        refine ih _ ⟨?_, ?_⟩
        · have hd := delta_sum_le_one r
          have h1 := h.1
          simp only
          omega
        · have h2 := h.2
          simp only [List.length_append, List.length_cons, List.length_nil]
          omega

/-- C4: after processing any stream of lines, `n_interchrom + n_intrachrom`
equals the number of valid records consumed, the three strand-category
counters sum to at most `n_intrachrom`, and the distance buffer has exactly
`n_intrachrom` entries; quantifying over all streams covers the state after
every loop iteration (every prefix of a stream is itself a stream). -/
theorem claim_C4_accumulator_invariants (items : List BedpeLine) :
    (runSummary items).n_interchrom + (runSummary items).n_intrachrom = countValid items ∧
    (runSummary items).inversion + (runSummary items).insertion + (runSummary items).deletion
        ≤ (runSummary items).n_intrachrom ∧
    (runSummary items).accum.length = (runSummary items).n_intrachrom := by
  have h1 := foldl_counts items initState
  have h2 := foldl_inv items initState ⟨by simp [initState], by simp [initState]⟩
  unfold runSummary
  refine ⟨?_, h2.1, h2.2⟩
  simpa [initState] using h1

/-! ### The chromosome-comparison branches (claim C1) -/

/-- C1: the claim says a record with `chrom1 == chrom2` gets its distance
appended and its strands classified, while `chrom1 != chrom2` only bumps the
other counter.  The code does the opposite: a same-chromosome record only
increments `n_interchrom` (no distance, no strand category), and a
different-chromosome record increments `n_intrachrom`, appends the distance
and classifies the strands — the two closed evaluations below exhibit this
at concrete records. -/
theorem claim_C1_branches_swapped :
    runSummary [.valid ⟨"chr1", 100, 200, "chr1", 500, 600, "+", "+"⟩]
      = ⟨0, 1, 0, 0, 0, 0, []⟩ ∧
    runSummary [.valid ⟨"chr1", 100, 200, "chr2", 500, 600, "+", "-"⟩]
      = ⟨1, 0, 0, 0, 1, 400, [400]⟩ := by
  exact ⟨rfl, rfl⟩

/-! ### Median of the empty buffer (claim C2) -/

/-- C2: the claim says the empty distance buffer is guarded and a sentinel is
reported.  The code has no guard: for `n = 0` the even branch evaluates
`accum[n/2 - 1]`, whose `size_t` index wraps to `2^64 - 1` — an out-of-bounds
read of the empty vector (`none` in the embedding), not a sentinel value. -/
theorem claim_C2_empty_median_faults : calc_median_chrposv [] = none := rfl

/-! ### Histogram bin indices (claim C3) -/

/-- C3: the claim says every computed bin index is clamped into
`[0, bin_count - 1]`.  The code only decrements an index equal to
`num_bins`, but with data `[0, 15]` and 10 bins the width truncates to 1 and
the value 15 (the maximum) computes bin index 15, which is not equal to 10,
stays out of range, and makes the bin-filling loop write out of bounds
(`none` in the embedding). -/
theorem claim_C3_bin_index_overflow :
    binIndex 0 1 10 15 = 15 ∧ HistogramData.make [0, 15] 10 = none := by
  exact ⟨rfl, rfl⟩

/-! ### The mean and its NaN arm (claim C6) -/

/-- C6: with `n_intrachrom = 0` (here: one valid record whose chromosomes are
equal, which the code routes away from the distance bucket) the code
evaluates `std::nan("")` — but stores it into the integer `CHRPOS`
`mean_len`, a conversion with no defined result and no NaN sentinel
(`none` in the embedding); the truncating-division arm for
`n_intrachrom > 0` is also exhibited. -/
theorem claim_C6_mean_nan_unrepresentable :
    mean_len 801 2 = some 400 ∧
    (runSummary [.valid ⟨"chrX", 100, 200, "chrX", 500, 600, "+", "+"⟩]).n_intrachrom = 0 ∧
    mean_len (runSummary [.valid ⟨"chrX", 100, 200, "chrX", 500, 600, "+", "+"⟩]).total_distance
      (runSummary [.valid ⟨"chrX", 100, 200, "chrX", 500, 600, "+", "+"⟩]).n_intrachrom
      = none := by
  exact ⟨rfl, rfl, rfl⟩

/-! ### Median of a non-empty buffer (claim C5) -/

theorem pow64_eq : (2 : Nat) ^ 64 = 18446744073709551616 := by norm_num

/-- C5: on a non-empty buffer (of a size a `std::vector` can have, i.e. below
`2^64`), the computed median is exactly the spec's even/odd-rule median:
sort ascending, middle element for odd length, integer-truncating mean of
the two middle elements for even length. -/
theorem claim_C5_median_exact (l : List Nat) (hne : l ≠ [])
    (hsz : l.length < 2 ^ 64) :
    calc_median_chrposv l = some (spec_exact_median l) := by
  unfold calc_median_chrposv spec_exact_median
  have hlen : (List.insertionSort (fun a b : Nat => a ≤ b) l).length = l.length :=
    List.length_insertionSort _ l
  have hpos : 0 < l.length := List.length_pos.mpr hne
  by_cases hodd : l.length % 2 = 1
  · rw [if_pos hodd, if_pos hodd]
    have hidx : l.length / 2 < (List.insertionSort (fun a b : Nat => a ≤ b) l).length := by
      rw [hlen]; omega
    rw [List.get?_eq_get hidx, List.getD_eq_getElem _ _ hidx, List.get_eq_getElem]
  · rw [if_neg hodd, if_neg hodd]
    have h2 : 2 ≤ l.length := by omega
    have hwrap : (l.length / 2 + 2 ^ 64 - 1) % 2 ^ 64 = l.length / 2 - 1 := by
      rw [pow64_eq] at hsz ⊢
      omega
    have hidx1 : l.length / 2 - 1 < (List.insertionSort (fun a b : Nat => a ≤ b) l).length := by
      rw [hlen]; omega
    have hidx2 : l.length / 2 < (List.insertionSort (fun a b : Nat => a ≤ b) l).length := by
      rw [hlen]; omega
    rw [hwrap, List.get?_eq_get hidx1, List.get?_eq_get hidx2,
        List.getD_eq_getElem _ _ hidx1, List.getD_eq_getElem _ _ hidx2,
        List.get_eq_getElem, List.get_eq_getElem]

/-- Witness for C5 at the concrete buffer `[4, 1, 2, 3]`: both the code's
median and the spec's even/odd-rule median evaluate to `2`. -/
theorem claim_C5_median_exact_witness :
    calc_median_chrposv [4, 1, 2, 3] = some (spec_exact_median [4, 1, 2, 3]) :=
  claim_C5_median_exact [4, 1, 2, 3] (by decide) (by decide)

/-! ### Strand sub-classification priority (claims C7 and C10) -/

/-- C7: for a record that reaches the strand sub-classification (in this code:
`chrom1 != chrom2`), the three category counters change exactly by the
fall-through deltas — equal strands take the `inversion` branch first,
`"+"/"-"` takes `deletion` only when the strands are unequal, `"-"/"+"`
takes `insertion` only when the two earlier tests failed, any other
combination increments none — and at most one of the three counters
grows. -/
theorem claim_C7_strand_priority (acc : SummaryState) (r : BEDPE)
    (h : ¬ r.chrom1 = r.chrom2) :
    (summaryStep acc (.valid r)).inversion = acc.inversion + invDelta r ∧
    (summaryStep acc (.valid r)).deletion = acc.deletion + delDelta r ∧
    (summaryStep acc (.valid r)).insertion = acc.insertion + insDelta r ∧
    (summaryStep acc (.valid r)).inversion + (summaryStep acc (.valid r)).insertion
        + (summaryStep acc (.valid r)).deletion
      ≤ acc.inversion + acc.insertion + acc.deletion + 1 := by
  rw [summaryStep_diff acc r h]
  have hd := delta_sum_le_one r
  refine ⟨rfl, rfl, rfl, ?_⟩
  simp only
  omega

/-- Witness for C7 at a concrete record with strands `"+"`/`"-"`: only
`deletion` grows. -/
theorem claim_C7_strand_priority_witness :
    (summaryStep initState (.valid ⟨"chr1", 100, 200, "chr2", 500, 600, "+", "-"⟩)).inversion
        = initState.inversion + invDelta ⟨"chr1", 100, 200, "chr2", 500, 600, "+", "-"⟩ ∧
    (summaryStep initState (.valid ⟨"chr1", 100, 200, "chr2", 500, 600, "+", "-"⟩)).deletion
        = initState.deletion + delDelta ⟨"chr1", 100, 200, "chr2", 500, 600, "+", "-"⟩ ∧
    (summaryStep initState (.valid ⟨"chr1", 100, 200, "chr2", 500, 600, "+", "-"⟩)).insertion
        = initState.insertion + insDelta ⟨"chr1", 100, 200, "chr2", 500, 600, "+", "-"⟩ ∧
    (summaryStep initState (.valid ⟨"chr1", 100, 200, "chr2", 500, 600, "+", "-"⟩)).inversion
        + (summaryStep initState (.valid ⟨"chr1", 100, 200, "chr2", 500, 600, "+", "-"⟩)).insertion
        + (summaryStep initState (.valid ⟨"chr1", 100, 200, "chr2", 500, 600, "+", "-"⟩)).deletion
      ≤ initState.inversion + initState.insertion + initState.deletion + 1 :=
  claim_C7_strand_priority initState ⟨"chr1", 100, 200, "chr2", 500, 600, "+", "-"⟩ (by decide)

/-- C10: a record whose two strand fields are equal strings that are neither
`"+"` nor `"-"` (for example `"."`/`"."`) still takes the first branch and
increments `inversion`, leaving `insertion` and `deletion` unchanged. -/
theorem claim_C10_equal_unknown_strands (acc : SummaryState) (r : BEDPE)
    (h : ¬ r.chrom1 = r.chrom2) (hs : r.strand1 = r.strand2)
    (hplus : ¬ r.strand1 = "+") (hminus : ¬ r.strand1 = "-") :
    (summaryStep acc (.valid r)).inversion = acc.inversion + 1 ∧
    (summaryStep acc (.valid r)).insertion = acc.insertion ∧
    (summaryStep acc (.valid r)).deletion = acc.deletion := by
  rw [summaryStep_diff acc r h]
  refine ⟨?_, ?_, ?_⟩
  · simp only [invDelta, if_pos hs]
  · simp only [insDelta]
    rw [if_neg]
    · rfl
    · rintro ⟨hne, -⟩; exact hne hs
  · simp only [delDelta]
    rw [if_neg]
    · rfl
    · rintro ⟨hne, -⟩; exact hne hs

/-- Witness for C10 at a record with strands `"."`/`"."`: `inversion` is
incremented. -/
theorem claim_C10_equal_unknown_strands_witness :
    (summaryStep initState (.valid ⟨"chr1", 100, 200, "chr2", 500, 600, ".", "."⟩)).inversion
        = initState.inversion + 1 ∧
    (summaryStep initState (.valid ⟨"chr1", 100, 200, "chr2", 500, 600, ".", "."⟩)).insertion
        = initState.insertion ∧
    (summaryStep initState (.valid ⟨"chr1", 100, 200, "chr2", 500, 600, ".", "."⟩)).deletion
        = initState.deletion :=
  claim_C10_equal_unknown_strands initState ⟨"chr1", 100, 200, "chr2", 500, 600, ".", "."⟩
    (by decide) rfl (by decide) (by decide)

/-! ### Permutation invariance of folds over min/max -/

theorem foldl_op_perm (f : Nat → Nat → Nat)
    (hcomm : ∀ a b, f a b = f b a) (hassoc : ∀ a b c, f (f a b) c = f a (f b c)) :
    ∀ {l1 l2 : List Nat}, List.Perm l1 l2 → ∀ a, List.foldl f a l1 = List.foldl f a l2 := by
  intro l1 l2 h
  induction h with
  | nil => intro a; rfl
  | cons x _ ih => intro a; simp only [List.foldl_cons]; exact ih (f a x)
  | swap x y l =>
    intro a
    simp only [List.foldl_cons]
    rw [hassoc, hcomm y x, ← hassoc]
  | trans _ _ ih1 ih2 => intro a; rw [ih1 a, ih2 a]

theorem foldl_op_absorb (f : Nat → Nat → Nat)
    (hcomm : ∀ a b, f a b = f b a) (hassoc : ∀ a b c, f (f a b) c = f a (f b c))
    (hidem : ∀ a, f a a = a) :
    ∀ (l : List Nat) (x a : Nat), x ∈ l → List.foldl f (f a x) l = List.foldl f a l := by
  intro l
  induction l with
  | nil => intro x a hx; cases hx
  | cons y t ih =>
    intro x a hx
    simp only [List.foldl_cons]
    rcases List.mem_cons.mp hx with rfl | hxt
    · rw [hassoc, hidem x]
    · rw [show f (f a x) y = f (f a y) x from by rw [hassoc, hcomm x y, ← hassoc]]
      exact ih x (f a y) hxt

theorem foldl_op_head (f : Nat → Nat → Nat)
    (hcomm : ∀ a b, f a b = f b a) (hassoc : ∀ a b c, f (f a b) c = f a (f b c))
    (hidem : ∀ a, f a a = a) :
    ∀ {d1 d2 : Nat} {ds1 ds2 : List Nat}, List.Perm (d1 :: ds1) (d2 :: ds2) →
      List.foldl f d1 ds1 = List.foldl f d2 ds2 := by
  intro d1 d2 ds1 ds2 h
  have h1 : List.foldl f d1 (d1 :: ds1) = List.foldl f d1 ds1 := by
    simp only [List.foldl_cons, hidem d1]
  have h2 : List.foldl f d2 (d2 :: ds2) = List.foldl f d2 ds2 := by
    simp only [List.foldl_cons, hidem d2]
  have hmem2 : d2 ∈ d1 :: ds1 := h.symm.subset (List.mem_cons_self d2 ds2)
  have hmem1 : d1 ∈ d1 :: ds1 := List.mem_cons_self d1 ds1
  have e1 : List.foldl f (f d1 d2) (d1 :: ds1) = List.foldl f d1 (d1 :: ds1) :=
    foldl_op_absorb f hcomm hassoc hidem (d1 :: ds1) d2 d1 hmem2
  have e2 : List.foldl f (f d2 d1) (d1 :: ds1) = List.foldl f d2 (d1 :: ds1) :=
    foldl_op_absorb f hcomm hassoc hidem (d1 :: ds1) d1 d2 hmem1
  have key : List.foldl f d1 (d1 :: ds1) = List.foldl f d2 (d1 :: ds1) := by
    rw [← e1, hcomm d1 d2, e2]
  rw [← h1, key, foldl_op_perm f hcomm hassoc h d2, h2]

theorem foldl_min_head {d1 d2 : Nat} {ds1 ds2 : List Nat}
    (h : List.Perm (d1 :: ds1) (d2 :: ds2)) :
    List.foldl Nat.min d1 ds1 = List.foldl Nat.min d2 ds2 :=
  foldl_op_head Nat.min (fun a b => Nat.min_comm a b) (fun a b c => Nat.min_assoc a b c)
    (fun a => Nat.min_self a) h

theorem foldl_max_head {d1 d2 : Nat} {ds1 ds2 : List Nat}
    (h : List.Perm (d1 :: ds1) (d2 :: ds2)) :
    List.foldl Nat.max d1 ds1 = List.foldl Nat.max d2 ds2 :=
  foldl_op_head Nat.max (fun a b => Nat.max_comm a b) (fun a b c => Nat.max_assoc a b c)
    (fun a => Nat.max_self a) h

/-! ### Properties of the bin-filling loop -/

theorem bumpBin_length (bins : List Nat) (idx : Nat) (out : List Nat)
    (h : bumpBin bins idx = some out) : out.length = bins.length := by
  unfold bumpBin at h
  split at h
  · cases h; simp
  · cases h

theorem sum_set_get : ∀ (l : List Nat) (i : Nat) (h : i < l.length),
    (l.set i (l.get ⟨i, h⟩ + 1)).sum = l.sum + 1 := by
  intro l
  induction l with
  | nil => intro i h; simp at h
  | cons x t ih =>
    intro i h
    cases i with
    | zero => simp [List.sum_cons]; omega
    | succ j =>
      have hj : j < t.length := by simpa using h
      simp only [List.set, List.sum_cons, List.get]
      have := ih j hj
      omega

theorem bumpBin_sum (bins : List Nat) (idx : Nat) (out : List Nat)
    (h : bumpBin bins idx = some out) : out.sum = bins.sum + 1 := by
  unfold bumpBin at h
  split at h
  · cases h; exact sum_set_get bins idx (by assumption)
  · cases h

theorem bumpBin_comm (bins : List Nat) (i j : Nat) :
    (bumpBin bins i).bind (fun b => bumpBin b j)
      = (bumpBin bins j).bind (fun b => bumpBin b i) := by
  by_cases hi : i < bins.length <;> by_cases hj : j < bins.length
  · by_cases hij : i = j
    · subst hij; rfl
    · unfold bumpBin
      rw [dif_pos hi, dif_pos hj]
      simp only [Option.some_bind]
      rw [dif_pos (show j < (bins.set i (bins.get ⟨i, hi⟩ + 1)).length by simpa using hj),
          dif_pos (show i < (bins.set j (bins.get ⟨j, hj⟩ + 1)).length by simpa using hi)]
      congr 1
      have egj : (bins.set i (bins.get ⟨i, hi⟩ + 1)).get
          ⟨j, by simpa using hj⟩ = bins.get ⟨j, hj⟩ := by
        simp only [List.get_eq_getElem]
        exact List.getElem_set_ne hij (by simpa using hj)
      have egi : (bins.set j (bins.get ⟨j, hj⟩ + 1)).get
          ⟨i, by simpa using hi⟩ = bins.get ⟨i, hi⟩ := by
        simp only [List.get_eq_getElem]
        exact List.getElem_set_ne (fun hji => hij hji.symm) (by simpa using hi)
      rw [egj, egi, List.set_comm _ _ _ hij]
  · unfold bumpBin
    rw [dif_pos hi, dif_neg hj]
    simp only [Option.some_bind, Option.none_bind]
    rw [dif_neg (show ¬ j < (bins.set i (bins.get ⟨i, hi⟩ + 1)).length by simpa using hj)]
  · unfold bumpBin
    rw [dif_neg hi, dif_pos hj]
    simp only [Option.some_bind, Option.none_bind]
    rw [dif_neg (show ¬ i < (bins.set j (bins.get ⟨j, hj⟩ + 1)).length by simpa using hi)]
  · unfold bumpBin
    rw [dif_neg hi, dif_neg hj]
    rfl

theorem fillBins_perm (mv w n : Nat) {d1 d2 : List Nat} (h : List.Perm d1 d2) :
    ∀ bins, fillBins mv w n d1 bins = fillBins mv w n d2 bins := by
  unfold fillBins
  induction h with
  | nil => intro bins; rfl
  | cons x _ ih =>
    intro bins
    simp only [List.foldlM_cons, Option.bind_eq_bind]
    cases hb : bumpBin bins (binIndex mv w n x) with
    | none => simp only [Option.none_bind]
    | some b => simp only [Option.some_bind]; exact ih b
  | swap x y l =>
    intro bins
    simp only [List.foldlM_cons, Option.bind_eq_bind]
    have hcomm := bumpBin_comm bins (binIndex mv w n y) (binIndex mv w n x)
    cases hy : bumpBin bins (binIndex mv w n y) with
    | none =>
      cases hx : bumpBin bins (binIndex mv w n x) with
      | none => simp only [Option.none_bind]
      | some b =>
        rw [hy, hx] at hcomm
        simp only [Option.none_bind, Option.some_bind] at hcomm
        simp only [Option.none_bind, Option.some_bind]
        rw [← hcomm, Option.none_bind]
    | some b =>
      cases hx : bumpBin bins (binIndex mv w n x) with
      | none =>
        rw [hy, hx] at hcomm
        simp only [Option.none_bind, Option.some_bind] at hcomm
        simp only [Option.none_bind, Option.some_bind]
        rw [hcomm, Option.none_bind]
      | some c =>
        rw [hy, hx] at hcomm
        simp only [Option.some_bind] at hcomm
        simp only [Option.some_bind]
        rw [hcomm]
  | trans _ _ ih1 ih2 => intro bins; rw [ih1 bins, ih2 bins]

theorem fillBins_sum (mv w n : Nat) (data : List Nat) :
    ∀ bins out, fillBins mv w n data bins = some out → out.sum = bins.sum + data.length := by
  induction data with
  | nil =>
    intro bins out h
    unfold fillBins at h
    simp only [List.foldlM_nil] at h
    cases h
    simp
  | cons v t ih =>
    intro bins out h
    unfold fillBins at h
    simp only [List.foldlM_cons, Option.bind_eq_bind] at h
    cases hb : bumpBin bins (binIndex mv w n v) with
    | none => rw [hb, Option.none_bind] at h; cases h
    | some b =>
      rw [hb, Option.some_bind] at h
      have h2 := ih b out h
      have h3 := bumpBin_sum bins (binIndex mv w n v) b hb
      simp only [List.length_cons]
      omega

/-- The histogram construction only depends on the multiset of data values:
permuting the input gives the identical result. -/
theorem histogram_make_perm {d1 d2 : List Nat} (h : List.Perm d1 d2) (num_bins : Nat) :
    HistogramData.make d1 num_bins = HistogramData.make d2 num_bins := by
  cases d1 with
  | nil =>
    have h2 : d2 = [] := h.symm.eq_nil
    subst h2; rfl
  | cons x xs =>
    cases d2 with
    | nil => exact absurd h.eq_nil (by simp)
    | cons y ys =>
      simp only [HistogramData.make]
      by_cases hnb : num_bins = 0
      · rw [if_pos hnb, if_pos hnb]
      · rw [if_neg hnb, if_neg hnb]
        have hmin : xs.foldl Nat.min x = ys.foldl Nat.min y := foldl_min_head h
        have hmax : xs.foldl Nat.max x = ys.foldl Nat.max y := foldl_max_head h
        rw [hmin, hmax, fillBins_perm _ _ _ h]

/-! ### Permutation invariance of the median -/

theorem insertionSort_eq_of_perm {l1 l2 : List Nat} (h : List.Perm l1 l2) :
    List.insertionSort (fun a b => a ≤ b) l1 = List.insertionSort (fun a b => a ≤ b) l2 := by
  exact List.eq_of_perm_of_sorted
    ((List.perm_insertionSort _ l1).trans (h.trans (List.perm_insertionSort _ l2).symm))
    (List.sorted_insertionSort _ l1) (List.sorted_insertionSort _ l2)

theorem calc_median_perm {l1 l2 : List Nat} (h : List.Perm l1 l2) :
    calc_median_chrposv l1 = calc_median_chrposv l2 := by
  unfold calc_median_chrposv
  rw [insertionSort_eq_of_perm h, h.length_eq]

/-! ### Permutation invariance of the whole scan (claim C9) -/

/-- Two accumulator states that agree on every counter and the distance
total, with buffers that are permutations of one another. -/
def StateEquiv (a b : SummaryState) : Prop :=
  a.n_intrachrom = b.n_intrachrom ∧ a.n_interchrom = b.n_interchrom ∧
  a.inversion = b.inversion ∧ a.insertion = b.insertion ∧ a.deletion = b.deletion ∧
  a.total_distance = b.total_distance ∧ List.Perm a.accum b.accum

theorem stateEquiv_refl (a : SummaryState) : StateEquiv a a :=
  ⟨rfl, rfl, rfl, rfl, rfl, rfl, List.Perm.refl _⟩

theorem stateEquiv_trans {a b c : SummaryState} (h1 : StateEquiv a b)
    (h2 : StateEquiv b c) : StateEquiv a c := by
  obtain ⟨e1, e2, e3, e4, e5, e6, e7⟩ := h1
  obtain ⟨f1, f2, f3, f4, f5, f6, f7⟩ := h2
  exact ⟨e1.trans f1, e2.trans f2, e3.trans f3, e4.trans f4, e5.trans f5,
    e6.trans f6, e7.trans f7⟩

theorem summaryStep_equiv {a b : SummaryState} (h : StateEquiv a b) (it : BedpeLine) :
    StateEquiv (summaryStep a it) (summaryStep b it) := by
  obtain ⟨e1, e2, e3, e4, e5, e6, e7⟩ := h
  cases it with
  | skipline => exact ⟨e1, e2, e3, e4, e5, e6, e7⟩
  | valid r =>
    by_cases hc : r.chrom1 = r.chrom2
    · rw [summaryStep_same a r hc, summaryStep_same b r hc]
      exact ⟨e1, by simpa using e2, e3, e4, e5, e6, e7⟩
    · rw [summaryStep_diff a r hc, summaryStep_diff b r hc]
      refine ⟨by simpa using e1, e2, by simpa using e3, by simpa using e4,
        by simpa using e5, by simpa using e6, ?_⟩
      exact e7.append (List.Perm.refl [dist r])

theorem foldl_step_equiv (l : List BedpeLine) :
    ∀ {a b : SummaryState}, StateEquiv a b →
      StateEquiv (List.foldl summaryStep a l) (List.foldl summaryStep b l) := by
  induction l with
  | nil => intro a b h; exact h
  | cons it t ih =>
    intro a b h
    simp only [List.foldl_cons]
    exact ih (summaryStep_equiv h it)

theorem summaryStep_swap (acc : SummaryState) (x y : BedpeLine) :
    StateEquiv (summaryStep (summaryStep acc x) y) (summaryStep (summaryStep acc y) x) := by
  cases x with
  | skipline => exact stateEquiv_refl _
  | valid rx =>
    cases y with
    | skipline => exact stateEquiv_refl _
    | valid ry =>
      by_cases hx : rx.chrom1 = rx.chrom2 <;> by_cases hy : ry.chrom1 = ry.chrom2
      · rw [summaryStep_same acc rx hx, summaryStep_same acc ry hy,
            summaryStep_same _ ry hy, summaryStep_same _ rx hx]
        exact stateEquiv_refl _
      · rw [summaryStep_same acc rx hx, summaryStep_diff acc ry hy,
            summaryStep_diff _ ry hy, summaryStep_same _ rx hx]
        exact stateEquiv_refl _
      · rw [summaryStep_diff acc rx hx, summaryStep_same acc ry hy,
            summaryStep_same _ ry hy, summaryStep_diff _ rx hx]
        exact stateEquiv_refl _
      · rw [summaryStep_diff acc rx hx, summaryStep_diff acc ry hy,
            summaryStep_diff _ ry hy, summaryStep_diff _ rx hx]
        refine ⟨by simp, by simp, by simp; omega, by simp; omega, by simp; omega,
          by simp; omega, ?_⟩
        simp only [List.append_assoc]
        exact List.Perm.append_left acc.accum
          (by simpa using List.Perm.swap (dist ry) (dist rx) [])

theorem foldl_step_perm {l1 l2 : List BedpeLine} (h : List.Perm l1 l2) :
    ∀ acc : SummaryState,
      StateEquiv (List.foldl summaryStep acc l1) (List.foldl summaryStep acc l2) := by
  induction h with
  | nil => intro acc; exact stateEquiv_refl _
  | cons x _ ih =>
    intro acc
    simp only [List.foldl_cons]
    exact ih (summaryStep acc x)
  | swap x y l =>
    intro acc
    simp only [List.foldl_cons]
    exact foldl_step_equiv l (summaryStep_swap acc y x)
  | trans _ _ ih1 ih2 =>
    intro acc
    exact stateEquiv_trans (ih1 acc) (ih2 acc)

/-- C9: permuting the valid-record sequence leaves every reported value
unchanged: the five counters, the mean, the median and the histogram
(its `min_val`, `bin_width` and bin counts included) are identical. -/
theorem claim_C9_order_independence (l1 l2 : List BEDPE) (h : List.Perm l1 l2) :
    ProcessBedPE_summary (l1.map .valid) = ProcessBedPE_summary (l2.map .valid) := by
  cases l1 with
  | nil =>
    have h2 : l2 = [] := h.symm.eq_nil
    subst h2; rfl
  | cons x xs =>
    cases l2 with
    | nil => exact absurd h.eq_nil (by simp)
    | cons y ys =>
      have hperm : List.Perm ((x :: xs).map BedpeLine.valid) ((y :: ys).map BedpeLine.valid) :=
        h.map _
      have hequiv := foldl_step_perm hperm initState
      obtain ⟨e1, e2, e3, e4, e5, e6, e7⟩ := hequiv
      unfold ProcessBedPE_summary runSummary
      simp only [List.map_cons]
      simp only [List.map_cons] at e1 e2 e3 e4 e5 e6 e7
      rw [e1, e2, e3, e4, e5, e6, calc_median_perm e7, histogram_make_perm e7]

/-- Witness for C9: two concrete records in both orders give the identical
report. -/
theorem claim_C9_order_independence_witness :
    ProcessBedPE_summary
        ([⟨"chr1", 100, 200, "chr2", 500, 600, "+", "-"⟩,
          ⟨"chrA", 10, 20, "chrB", 50, 60, "+", "+"⟩].map .valid)
      = ProcessBedPE_summary
        ([⟨"chrA", 10, 20, "chrB", 50, 60, "+", "+"⟩,
          ⟨"chr1", 100, 200, "chr2", 500, 600, "+", "-"⟩].map .valid) :=
  claim_C9_order_independence _ _ (List.Perm.swap _ _ _)

/-! ### Histogram bin-count sums (claim C8) -/

/-- C8 counterexample: the claim promises bin counts for *every* input
sequence, but on data `[0, 19]` with 10 bins the width truncates to 1, the
value 19 computes bin index 19, the loop writes out of bounds and the
construction faults — there are no bin counts at all, in particular none
summing to the buffer length 2. -/
theorem claim_C8_counterexample : HistogramData.make [0, 19] 10 = none := rfl

/-- C8 (amended): whenever the histogram constructor completes without an
out-of-bounds bin write, its bin counts sum to the number of buffered
distances; they sum to 0 exactly when the buffer is empty or the bin width
truncates to 0. -/
theorem claim_C8_bin_counts_sum (data : List Nat) (num_bins : Nat) (hd : HistogramData)
    (h : HistogramData.make data num_bins = some hd) :
    hd.bin_data.sum = if data.isEmpty ∨ hd.bin_width = 0 then 0 else data.length := by
  cases data with
  | nil =>
    simp only [HistogramData.make] at h
    cases h
    simp
  | cons d ds =>
    simp only [HistogramData.make] at h
    by_cases hnb : num_bins = 0
    · rw [if_pos hnb] at h
      cases h
      simp
    · rw [if_neg hnb] at h
      by_cases hw : (List.foldl Nat.max d ds - List.foldl Nat.min d ds) / num_bins = 0
      · rw [if_pos hw] at h
        cases h
        simp [hw]
      · rw [if_neg hw] at h
        cases hf : fillBins (List.foldl Nat.min d ds)
            ((List.foldl Nat.max d ds - List.foldl Nat.min d ds) / num_bins) num_bins
            (d :: ds) (List.replicate num_bins 0) with
        | none => rw [hf] at h; cases h
        | some bins =>
          rw [hf] at h
          simp only [Option.map_some'] at h
          cases h
          have hsum := fillBins_sum (List.foldl Nat.min d ds)
            ((List.foldl Nat.max d ds - List.foldl Nat.min d ds) / num_bins) num_bins
            (d :: ds) (List.replicate num_bins 0) bins hf
          simp only [List.sum_replicate, smul_eq_mul, Nat.mul_zero, Nat.zero_add] at hsum
          rw [if_neg (by simp [hw])]
          simpa using hsum

/-- Witness for the amended C8 at the concrete buffer `[0, 5, 10]`: the
construction succeeds and the bin counts sum to the buffer length 3. -/
theorem claim_C8_bin_counts_sum_witness :
    HistogramData.make [0, 5, 10] 10
        = some ⟨10, 0, 10, 1, [1, 0, 0, 0, 0, 1, 0, 0, 0, 1]⟩ ∧
    (⟨10, 0, 10, 1, [1, 0, 0, 0, 0, 1, 0, 0, 0, 1]⟩ : HistogramData).bin_data.sum
        = if ([0, 5, 10] : List Nat).isEmpty ∨
              (⟨10, 0, 10, 1, [1, 0, 0, 0, 0, 1, 0, 0, 0, 1]⟩ : HistogramData).bin_width = 0
          then 0 else ([0, 5, 10] : List Nat).length :=
  ⟨rfl, claim_C8_bin_counts_sum [0, 5, 10] 10
    ⟨10, 0, 10, 1, [1, 0, 0, 0, 0, 1, 0, 0, 0, 1]⟩ rfl⟩

end BedpeSummary
